import Mathlib

/-!
Verification development for the `void` terminal mind-map editor.

The Rust sources are embedded shallowly:
  * `Coords` (Rust `(u16, u16)`) is modelled as `Int × Int`; every subtraction
    in the hot code is guarded by a comparison, so integer arithmetic agrees
    with the `u16` arithmetic of the source on all reachable values.
  * `BTreeMap` values are modelled as association lists kept sorted by key in
    the map iteration order; `Rc` pointer identity is modelled by a numeric
    `id` field allocated from a counter.
  * fallible or diverging code is modelled with `Option` and explicit fuel;
    an `unwrap` of `None` is modelled by a dedicated `panicked` result.
  * wall-clock reads (`time::get_time().sec`) become an explicit `now : Nat`
    argument, and file or terminal I/O is dropped (it never influences the
    in-memory state covered by the claims).

`src/src/screen.rs` uses a tree-shaped `Node` (with `height`,
`flat_visible_children`, node-level `find_child_at_coords`, `delete`,
`create_child`, `Content` append and backspace) whose implementation is not
under `src/`; those member functions are modelled from the spec and are marked
as such.  The arena-era node that *is* under `src/src/mindmap/node.rs` is
embedded separately in the `mindmap` namespace.
-/

namespace VoidMap

/-- Coordinates on the canvas: Rust `(u16, u16)`, modelled over the integers. -/
abbrev Coords := Int × Int

/-- Node metadata from `src/src/meta.rs`.  The `gps : (f32, f32)` field
(filled by an HTTP probe) and the `tags` map are omitted: they are never read
by the core and floating point plus network I/O are outside the embedding. -/
structure Meta where
  ctime : Nat
  mtime : Nat
  finish_time : Option Nat
  deriving Repr, DecidableEq

/-- `Meta::default` from `src/src/meta.rs`: `ctime` is the current wall-clock
second (the explicit `now` argument) and `mtime` starts at `0`. -/
def Meta.default (now : Nat) : Meta :=
  { ctime := now, mtime := 0, finish_time := none }

/-- `Meta::bump_mtime` from `src/src/meta.rs`: stores the current time. -/
def Meta.bump_mtime (m : Meta) (now : Nat) : Meta :=
  { m with mtime := now }

namespace mindmap

/-- The arena-era node of `src/src/mindmap/node.rs` (children are ids). -/
structure Node where
  rooted_coords : Coords
  parent_id : Nat
  id : Nat
  content : String
  children : List Nat
  selected : Bool
  collapsed : Bool
  stricken : Bool
  hide_stricken : Bool
  meta : Meta
  deriving Repr, DecidableEq

/-- `Node::default` from `src/src/mindmap/node.rs` (meta takes the clock). -/
def Node.default (now : Nat) : Node :=
  { rooted_coords := (0, 0), parent_id := 0, id := 0, content := ""
  , children := [], selected := false, collapsed := false, stricken := false
  , hide_stricken := false, meta := Meta.default now }

/-- `Node::visible_children` from `src/src/mindmap/node.rs`. -/
def Node.visible_children (n : Node) : List Nat :=
  if n.collapsed then [] else n.children

/-- `Node::toggle_collapsed` from `src/src/mindmap/node.rs`. -/
def Node.toggle_collapsed (n : Node) : Node :=
  if n.collapsed then { n with collapsed := false } else { n with collapsed := true }

/-- `Node::toggle_stricken` from `src/src/mindmap/node.rs`. -/
def Node.toggle_stricken (n : Node) : Node :=
  if n.stricken then { n with stricken := false } else { n with stricken := true }

/-- `Node::toggle_hide_stricken` from `src/src/mindmap/node.rs`. -/
def Node.toggle_hide_stricken (n : Node) : Node :=
  if n.hide_stricken then { n with hide_stricken := false } else { n with hide_stricken := true }

end mindmap

/-- The tree-shaped node used by `src/src/screen.rs`.  The numeric `id` models
the `Rc` pointer identity that the screen code compares with `as_ptr`. -/
structure Node where
  id : Nat
  content : String
  children : List Node
  selected : Bool
  collapsed : Bool
  stricken : Bool
  hideStricken : Bool
  meta : Meta

mutual

/-- Modelled from the spec: `height()` is one (for the own text line) plus the
sum of `height()` over `visible_children()`; the implementation used by
`src/src/screen.rs` is not under `src/`. -/
def Node.height : Node → Nat
  | ⟨_, _, children, _, collapsed, _, hs, _⟩ =>
      1 + (if collapsed then 0 else heightChildren hs children)

/-- Sum of the heights of the children that survive the visibility filter of
the parent (collapsed handled by the caller, `stricken ∧ hide_stricken` here). -/
def heightChildren (hs : Bool) : List Node → Nat
  | [] => 0
  | c :: t => (if c.stricken && hs then 0 else c.height) + heightChildren hs t

end

mutual

/-- Modelled from the spec: `flat_visible_children()` is the pre-order
enumeration of the descendants, skipping collapsed subtrees (and children
filtered by `stricken ∧ hide_stricken`); the implementation used by
`src/src/screen.rs` is not under `src/`. -/
def Node.flat_visible_children : Node → List Node
  | ⟨_, _, children, _, collapsed, _, hs, _⟩ =>
      if collapsed then [] else flatChildren hs children

/-- Pre-order enumeration of a child list under the visibility filter of the
parent. -/
def flatChildren (hs : Bool) : List Node → List Node
  | [] => []
  | c :: t => (if c.stricken && hs then [] else c :: c.flat_visible_children) ++ flatChildren hs t

end

/-- Modelled from the spec: the node-level `find_child_at_coords` returns the
node whose pre-order index within the anchor equals `dy` (the root itself has
index `0`, so entry `dy` of the enumeration is at list index `dy - 1`),
provided `dx` falls inside that line's drawn span `len(content) + 1`; the
implementation used by `src/src/screen.rs` is not under `src/`.  The `depth`
argument of the source is a recursion artifact and is dropped. -/
def Node.find_child_at_coords (n : Node) (dxy : Coords) : Option Node :=
  match n.flat_visible_children.get? (dxy.2 - 1).toNat with
  | some m => if dxy.1 ≤ (m.content.length : Int) + 1 then some m else none
  | none => none

mutual

/-- Models an in-place mutation through a shared `Rc`: rewrite the unique node
with pointer identity `t` wherever it sits in the tree. -/
def Node.update_node : Node → Nat → (Node → Node) → Node
  | n, t, f =>
    match n with
    | ⟨i, c, children, s, co, st, hs, m⟩ =>
      if i = t then f ⟨i, c, children, s, co, st, hs, m⟩
      else ⟨i, c, updateChildren children t f, s, co, st, hs, m⟩

/-- Pointwise `Node.update_node` over a child list. -/
def updateChildren : List Node → Nat → (Node → Node) → List Node
  | [], _, _ => []
  | c :: t, tgt, f => c.update_node tgt f :: updateChildren t tgt f

end

mutual

/-- Modelled from the spec: `delete(target)` recursively removes the node with
the given pointer identity (splicing its subtree out of the children list of
its parent); the implementation used by `src/src/screen.rs` is not under
`src/`.  The boolean found-result of the source is ignored by its caller and
dropped here. -/
def Node.delete : Node → Nat → Node
  | ⟨i, c, children, s, co, st, hs, m⟩, t =>
      ⟨i, c, deleteChildren children t, s, co, st, hs, m⟩

/-- Remove the child with identity `t` from a child list, recursing into the
children that stay. -/
def deleteChildren : List Node → Nat → List Node
  | [], _ => []
  | c :: t, tgt => if c.id = tgt then t else c.delete tgt :: deleteChildren t tgt

end

/-- Modelled from the spec: the node-level toggles flip the flag and stamp
`mtime`; `toggle_stricken` additionally sets or clears `finish_time` from the
current time.  The implementations used by `src/src/screen.rs` are not under
`src/` (the arena-era toggles that are under `src/` live in `mindmap`). -/
def Node.toggle_collapsed (now : Nat) (n : Node) : Node :=
  { n with collapsed := !n.collapsed, meta := n.meta.bump_mtime now }

/-- Modelled from the spec: flip `stricken`, stamp `mtime`, and set or clear
`finish_time` from the current time (see `Node.toggle_collapsed`). -/
def Node.toggle_stricken (now : Nat) (n : Node) : Node :=
  let stricken := !n.stricken
  { n with stricken := stricken
         , meta := { n.meta.bump_mtime now with
                      finish_time := if stricken then some now else none } }

/-- Modelled from the spec: flip `hide_stricken` and stamp `mtime` (see
`Node.toggle_collapsed`). -/
def Node.toggle_hide_stricken (now : Nat) (n : Node) : Node :=
  { n with hideStricken := !n.hideStricken, meta := n.meta.bump_mtime now }

/-- The selection record of `src/src/screen.rs` (`struct NodeLookup`); the two
`NodeRef` fields are modelled by their pointer identities. -/
structure NodeLookup where
  anchor : Nat
  node : Nat
  deriving Repr, DecidableEq

/-- The priority queue of `src/src/screen.rs` (`struct PrioQueue`): a
`BTreeMap<u16, Vec<Coords>>` modelled as an association list kept sorted by
key in ascending order, the order in which the map iterates. -/
structure PrioQueue where
  to_visit : List (Nat × List Coords)
  deriving Repr, DecidableEq

/-- `PrioQueue::default`. -/
def PrioQueue.empty : PrioQueue := ⟨[]⟩

/-- `BTreeMap::remove` on the sorted association list: the removed bucket (if
any) together with the remaining list. -/
def qremove : List (Nat × List Coords) → Nat → Option (List Coords) × List (Nat × List Coords)
  | [], _ => (none, [])
  | (k', b) :: t, k =>
    if k' = k then (some b, t)
    else
      let r := qremove t k
      (r.1, (k', b) :: r.2)

/-- `BTreeMap::insert` on the sorted association list (overwrites the bucket
when the key is present). -/
def qinsert : List (Nat × List Coords) → Nat → List Coords → List (Nat × List Coords)
  | [], k, b => [(k, b)]
  | (k', b') :: t, k, b =>
    if k < k' then (k, b) :: (k', b') :: t
    else if k = k' then (k, b) :: t
    else (k', b') :: qinsert t k b

/-- `PrioQueue::insert` from `src/src/screen.rs`: remove the bucket of the
key (or start a fresh one), push the value at its end, re-insert. -/
def PrioQueue.insert (q : PrioQueue) (k : Nat) (v : Coords) : PrioQueue :=
  let r := qremove q.to_visit k
  ⟨qinsert r.2 k (r.1.getD [] ++ [v])⟩

/-- `PrioQueue::pop` from `src/src/screen.rs`: read the first (lowest-key)
entry of the map, remove that bucket, `Vec::pop` its last element, and
re-insert the bucket when it is still nonempty.  On the sorted association
list the first map entry is the head, so removing the lowest key leaves the
tail. -/
def PrioQueue.pop (q : PrioQueue) : Option Coords × PrioQueue :=
  match q.to_visit with
  | [] => (none, q)
  | (k, b) :: t =>
    (b.getLast?, ⟨if (b.dropLast).isEmpty then t else qinsert t k b.dropLast⟩)

/-- The editor state of `src/src/screen.rs` (`struct Screen`).  The `stdout`
handle and `work_path` are I/O-only and dropped; `max_id` is never read or
written by the embedded operations; `next_ptr` is a modelling artifact that
allocates the numeric identities standing in for `Rc` pointers. -/
structure Screen where
  anchors : List (Coords × Node)
  arrows : List (NodeLookup × NodeLookup)
  last_selected : Option NodeLookup
  dragging_from : Option Coords
  drawing_arrow : Option NodeLookup
  next_ptr : Nat

/-- `Screen::default`. -/
def Screen.default : Screen :=
  { anchors := [], arrows := [], last_selected := none, dragging_from := none
  , drawing_arrow := none, next_ptr := 0 }

/-- `BTreeMap::insert` for the anchor index: sorted insertion in the
lexicographic `(x, y)` order of Rust `(u16, u16)`, overwriting an entry with
the same coordinates. -/
def anchorsInsert : List (Coords × Node) → Coords → Node → List (Coords × Node)
  | [], c, n => [(c, n)]
  | (c', n') :: t, c, n =>
    if c.1 < c'.1 ∨ (c.1 = c'.1 ∧ c.2 < c'.2) then (c, n) :: (c', n') :: t
    else if c = c' then (c, n) :: t
    else (c', n') :: anchorsInsert t c n

/-- `BTreeMap::remove` for the anchor index. -/
def anchorsRemove : List (Coords × Node) → Coords → List (Coords × Node)
  | [], _ => []
  | (c', n') :: t, c => if c = c' then t else (c', n') :: anchorsRemove t c

/-- `Screen::insert` from `src/src/screen.rs`: clamp the coordinates to at
least `(1, 1)` and insert the node into the anchor index. -/
def Screen.insert (s : Screen) (coords : Coords) (node : Node) : Screen :=
  { s with anchors := anchorsInsert s.anchors (max coords.1 1, max coords.2 1) node }

/-- `Screen::coords_for_anchor` from `src/src/screen.rs`: scan the anchor
index in order and return the coordinates of the first entry whose value has
the given pointer identity. -/
def Screen.coords_for_anchor (s : Screen) (node : Nat) : Option Coords :=
  (s.anchors.find? (fun e => e.2.id == node)).map Prod.fst

/-- The `if let Some(node) = look { candidate_nodes.push(..) }` body of the
second loop of `Screen::find_child_at_coords`. -/
def pushLook (acc : List NodeLookup) (anchorId : Nat) (look : Option Node) :
    List NodeLookup :=
  match look with
  | some node => acc ++ [NodeLookup.mk anchorId node.id]
  | none => acc

/-- `Screen::find_child_at_coords` from `src/src/screen.rs`: collect the
candidate anchors (in index order), then the candidate nodes, and pop the
last candidate.  The two accumulating loops of the source are `foldl`s. -/
def Screen.find_child_at_coords (s : Screen) (coords : Coords) : Option NodeLookup :=
  let candidate_anchors := s.anchors.foldl
    (fun acc e =>
      if e.1.1 ≤ coords.1 ∧ e.1.2 ≤ coords.2 ∧ coords.2 - e.1.2 < (e.2.height : Int)
      then acc ++ [e] else acc) []
  let candidate_nodes := candidate_anchors.foldl
    (fun acc e =>
      let lookup_coords : Coords := (coords.1 - e.1.1, coords.2 - e.1.2)
      let look : Option Node :=
        if lookup_coords.2 = 0 then
          if (e.2.content.length : Int) + 1 ≥ lookup_coords.1 then some e.2 else none
        else e.2.find_child_at_coords lookup_coords
      pushLook acc e.2.id look) []
  candidate_nodes.getLast?

/-- `Screen::occupied` from `src/src/screen.rs`. -/
def Screen.occupied (s : Screen) (coords : Coords) : Bool :=
  (s.find_child_at_coords coords).isSome

/-- `Screen::coords_for_lookup` from `src/src/screen.rs`: resolve the anchor
through `coords_for_anchor` (inlined here so that the arena model can reach
the anchor node the source holds through its `Rc`), then offset the row by
the last pre-order position of the looked-up node among the flat visible
children, or `0` when it does not occur. -/
def Screen.coords_for_lookup (s : Screen) (lookup : NodeLookup) : Option Coords :=
  match s.anchors.find? (fun e => e.2.id == lookup.anchor) with
  | none => none
  | some e =>
    let anchor_children := e.2.flat_visible_children
    let idx : Nat := anchor_children.enum.foldl
      (fun idx ic => if ic.2.id = lookup.node then ic.1 + 1 else idx) 0
    some (e.1.1, e.1.2 + (idx : Int))

/-- The `while let` loop of `Screen::bounds_for_lookup`: march `rx` right as
long as hit-testing `(rx, y)` still resolves to the same node.  The loop of
the source is bounded by the drawn spans; the explicit fuel makes it total. -/
def boundsRx (s : Screen) (node : Nat) (y : Int) : Nat → Int → Int
  | 0, rx => rx
  | fuel + 1, rx =>
    match s.find_child_at_coords (rx, y) with
    | some cursor => if cursor.node = node then boundsRx s node y fuel (rx + 1) else rx
    | none => rx

/-- `Screen::bounds_for_lookup` from `src/src/screen.rs`. -/
def Screen.bounds_for_lookup (s : Screen) (lookup : NodeLookup) (fuel : Nat) :
    Option (Coords × Coords) :=
  match s.coords_for_lookup lookup with
  | some left => some (left, (boundsRx s lookup.node left.2 fuel left.1, left.2))
  | none => none

/-- Result of running the arrow router: a route, a modelled panic (an `unwrap`
of `None` in the source), or exhaustion of the explicit fuel that stands in
for a diverging loop. -/
inductive PathResult where
  | route (cells : List Coords)
  | panicked
  | fuelOut
  deriving Repr, DecidableEq

/-- Propagate panic and fuel exhaustion through a computation on a route. -/
def PathResult.bind (r : PathResult) (f : List Coords → PathResult) : PathResult :=
  match r with
  | .route p => f p
  | .panicked => .panicked
  | .fuelOut => .fuelOut

/-- Whether the result is the modelled panic. -/
def PathResult.isPanicked : PathResult → Bool
  | .panicked => true
  | _ => false

/-- The local `cost` function of `Screen::path`: Manhattan distance computed,
as in the source, from `max - min` in each component. -/
def cost (c1 c2 : Coords) : Nat :=
  (max c1.1 c2.1 - min c1.1 c2.1).toNat + (max c1.2 c2.2 - min c1.2 c2.2).toNat

/-- The local `perms` function of `Screen::path`: the four cardinal
neighbours, the decremented coordinate computed as `max(v, 1) - 1` exactly as
in the source (which therefore bottoms out at `0`, not at `1`). -/
def perms (c : Coords) : List Coords :=
  [(c.1 + 1, c.2), (max c.1 1 - 1, c.2), (c.1, c.2 + 1), (c.1, max c.2 1 - 1)]

/-- `BTreeMap::get` (and `contains_key`) for the `visited` map of
`Screen::path`; keys are inserted at most once, so list order is immaterial. -/
def vlookup : List (Coords × Coords) → Coords → Option Coords
  | [], _ => none
  | (k, v) :: t, c => if k = c then some v else vlookup t c

/-- The mutable state of the search loop of `Screen::path`: the `visited`
predecessor map and the priority queue. -/
structure SearchSt where
  visited : List (Coords × Coords)
  pq : PrioQueue

/-- The neighbour-expansion step of one iteration of `Screen::path`: for each
neighbour that is free (or the destination) and unvisited, record the
predecessor and queue it keyed by its distance to the destination. -/
def expand (s : Screen) (dest cursor : Coords) (st : SearchSt) : SearchSt :=
  (perms cursor).foldl
    (fun st neighbor =>
      if (s.occupied neighbor = false ∨ neighbor = dest) ∧ vlookup st.visited neighbor = none
      then ⟨st.visited ++ [(neighbor, cursor)], st.pq.insert (cost neighbor dest) neighbor⟩
      else st) st

/-- The reconstruction loop at the end of `Screen::path`: walk the `visited`
map from `dest` back to `start`, collecting each predecessor in push order
(the caller reverses).  A missing key is the source's `unwrap` panic, `none`
here; the fuel covers the loop (a chain in `visited` can never be longer than
the map, so callers pass `visited.length + 1`). -/
def backWalk (visited : List (Coords × Coords)) (start : Coords) :
    Nat → Coords → Option (List Coords)
  | 0, _ => none
  | fuel + 1, back_cursor =>
    if back_cursor = start then some []
    else
      match vlookup visited back_cursor with
      | none => none
      | some prev => (backWalk visited start fuel prev).map (fun p => prev :: p)

/-- The `while cursor != dest` loop of `Screen::path`: expand the cursor, pop
the next cursor from the priority queue (`unwrap` of an empty queue is the
modelled panic), and repeat; on reaching the destination, reconstruct the
route.  The fuel stands in for the unbounded iteration of the source. -/
def pathLoop (s : Screen) (start dest : Coords) : Nat → Coords → SearchSt → PathResult
  | 0, _, _ => .fuelOut
  | fuel + 1, cursor, st =>
    if cursor = dest then
      match backWalk st.visited start (st.visited.length + 1) dest with
      | some p => .route p.reverse
      | none => .panicked
    else
      let st2 := expand s dest cursor st
      match st2.pq.pop with
      | (none, _) => .panicked
      | (some c, pq2) => pathLoop s start dest fuel c ⟨st2.visited, pq2⟩

/-- `Screen::path` from `src/src/screen.rs`. -/
def Screen.path (s : Screen) (start dest : Coords) (fuel : Nat) : PathResult :=
  pathLoop s start dest fuel start ⟨[], PrioQueue.empty⟩

/-- `Screen::path_between_nodes` from `src/src/screen.rs`: `unwrap` the bounds
of both endpoints (a dangling endpoint panics), compute the four corner
routes, and keep the shortest (first wins ties, via the source's fold). -/
def Screen.path_between_nodes (s : Screen) (start dest : NodeLookup) (fuel : Nat) :
    PathResult :=
  match s.bounds_for_lookup start fuel with
  | none => .panicked
  | some (s1, s2) =>
    match s.bounds_for_lookup dest fuel with
    | none => .panicked
    | some (t1, t2) =>
      (s.path s1 t1 fuel).bind fun init =>
      (s.path s1 t2 fuel).bind fun p1 =>
      (s.path s2 t1 fuel).bind fun p2 =>
      (s.path s2 t2 fuel).bind fun p3 =>
      .route ([p1, p2, p3].foldl
        (fun short path => if path.length < short.length then path else short) init)

/-- The state-relevant fragment of `Screen::draw`: rendering writes only to
the terminal, but the arrow overlay runs `path_between_nodes` on every stored
arrow and inherits its panics.  `true` when no arrow panics. -/
def Screen.draw_ok (s : Screen) (fuel : Nat) : Bool :=
  s.arrows.all (fun a => !(s.path_between_nodes a.1 a.2 fuel).isPanicked)

/-- Rewrite the node with pointer identity `id` wherever it sits in the anchor
index: the arena-model counterpart of mutating through the shared `Rc` held
by a `NodeLookup`. -/
def Screen.update_node (s : Screen) (id : Nat) (f : Node → Node) : Screen :=
  { s with anchors := s.anchors.map (fun e => (e.1, e.2.update_node id f)) }

/-- Set or clear the `selected` flag of a node. -/
def setSelected (v : Bool) (n : Node) : Node := { n with selected := v }

/-- `Screen::pop_selected` from `src/src/screen.rs`. -/
def Screen.pop_selected (s : Screen) : Screen × Option NodeLookup :=
  if s.dragging_from = none then
    match s.last_selected with
    | some lookup =>
      ({ s.update_node lookup.node (setSelected false) with last_selected := none }
      , some lookup)
    | none => (s, none)
  else (s, none)

/-- `Screen::try_select` from `src/src/screen.rs`. -/
def Screen.try_select (s : Screen) (coords : Coords) : Screen × Option NodeLookup :=
  if s.dragging_from = none then
    match s.find_child_at_coords coords with
    | some lookup =>
      ({ s.update_node lookup.node (setSelected true) with
          last_selected := some lookup, dragging_from := some coords }
      , some lookup)
    | none => (s, none)
  else (s, none)

/-- `Screen::toggle_stricken` from `src/src/screen.rs` (the node-level toggle
it calls is modelled from the spec). -/
def Screen.toggle_stricken (s : Screen) (now : Nat) : Screen :=
  match s.last_selected with
  | some lookup => s.update_node lookup.node (Node.toggle_stricken now)
  | none => s

/-- `Screen::toggle_hide_stricken` from `src/src/screen.rs`. -/
def Screen.toggle_hide_stricken (s : Screen) (now : Nat) : Screen :=
  match s.last_selected with
  | some lookup => s.update_node lookup.node (Node.toggle_hide_stricken now)
  | none => s

/-- `Screen::toggle_collapsed` from `src/src/screen.rs`. -/
def Screen.toggle_collapsed (s : Screen) (now : Nat) : Screen :=
  match s.last_selected with
  | some lookup => s.update_node lookup.node (Node.toggle_collapsed now)
  | none => s

/-- `Screen::create_anchor` from `src/src/screen.rs`: a fresh empty node,
inserted clamped.  The fresh pointer identity comes from the allocator. -/
def Screen.create_anchor (s : Screen) (now : Nat) (coords : Coords) : Screen :=
  let node : Node :=
    ⟨s.next_ptr, "", [], false, false, false, false, Meta.default now⟩
  { s.insert coords node with next_ptr := s.next_ptr + 1 }

/-- `Screen::backspace` from `src/src/screen.rs`; the `Content::backspace` it
calls is modelled from the spec (drop the last character, no-op on empty),
and touches only the content buffer. -/
def Screen.backspace (s : Screen) : Screen :=
  match s.last_selected with
  | some lookup =>
    s.update_node lookup.node (fun n => { n with content := n.content.dropRight 1 })
  | none => s

/-- `Screen::append` from `src/src/screen.rs`; the `Content::append` it calls
is modelled from the spec (push the character). -/
def Screen.append (s : Screen) (c : Char) : Screen :=
  match s.last_selected with
  | some lookup =>
    s.update_node lookup.node (fun n => { n with content := n.content.push c })
  | none => s

/-- `Screen::move_selected` from `src/src/screen.rs`: every index entry whose
value is the selected anchor is removed and re-inserted displaced by
`(dx, dy)`, each coordinate clamped to at least `1`.  The source casts the
`u16` coordinates with `as i16`; `asI16` reproduces that reinterpretation. -/
def asI16 (n : Int) : Int := (n + 32768) % 65536 - 32768

/-- See `asI16`; the fold iterates over the clone of the index the source
takes before mutating, as the source does. -/
def Screen.move_selected (s : Screen) (fromc toc : Coords) : Screen :=
  let dx := asI16 toc.1 - asI16 fromc.1
  let dy := asI16 toc.2 - asI16 fromc.2
  match s.last_selected with
  | none => s
  | some lookup =>
    s.anchors.foldl
      (fun acc e =>
        let nx := max (asI16 e.1.1 + dx) 1
        let ny := max (asI16 e.1.2 + dy) 1
        if e.2.id = lookup.anchor then
          { acc with anchors := anchorsInsert (anchorsRemove acc.anchors e.1) (nx, ny) e.2 }
        else acc)
      s

/-- `Screen::click_select` from `src/src/screen.rs`. -/
def Screen.click_select (s : Screen) (coords : Coords) : Screen × Option NodeLookup :=
  let r1 := s.pop_selected
  let r2 := r1.1.try_select coords
  ({ r2.1 with dragging_from := none }, r2.2)

/-- `Screen::select_up` from `src/src/screen.rs`. -/
def Screen.select_up (s : Screen) : Screen :=
  match s.last_selected with
  | none => s
  | some lookup =>
    match s.coords_for_lookup lookup with
    | none => s
    | some coords =>
      if coords.2 > 0 then
        let r := s.click_select (coords.1, coords.2 - 1)
        if r.2 = none then (r.1.click_select coords).1 else r.1
      else s

/-- `Screen::select_down` from `src/src/screen.rs`. -/
def Screen.select_down (s : Screen) : Screen :=
  match s.last_selected with
  | none => s
  | some lookup =>
    match s.coords_for_lookup lookup with
    | none => s
    | some coords =>
      let r := s.click_select (coords.1, coords.2 + 1)
      if r.2 = none then (r.1.click_select coords).1 else r.1

/-- `Screen::select_node` from `src/src/screen.rs`. -/
def Screen.select_node (s : Screen) (lookup : NodeLookup) : Screen :=
  let r := s.pop_selected
  { r.1.update_node lookup.node (setSelected true) with last_selected := some lookup }

/-- `Screen::create_child` from `src/src/screen.rs`; the node-level
`create_child` it calls (push a fresh empty node onto the children) is
modelled from the spec. -/
def Screen.create_child (s : Screen) (now : Nat) : Screen :=
  match s.last_selected with
  | none => s
  | some lookup =>
    let child_id := s.next_ptr
    let child : Node := ⟨child_id, "", [], false, false, false, false, Meta.default now⟩
    let s1 := { s.update_node lookup.node (fun n => { n with children := n.children ++ [child] })
                with next_ptr := s.next_ptr + 1 }
    s1.select_node ⟨lookup.anchor, child_id⟩

/-- `Screen::delete_selected` from `src/src/screen.rs`. -/
def Screen.delete_selected (s : Screen) : Screen :=
  match s.last_selected with
  | none => s
  | some lookup =>
    let s0 := { s with last_selected := none }
    let coords := s0.coords_for_lookup lookup
    let spliced :=
      s0.anchors.map (fun e => if e.2.id = lookup.anchor then (e.1, e.2.delete lookup.node) else e)
    let s1 :=
      if lookup.anchor = lookup.node then
        { s0 with anchors := s0.anchors.filter (fun e => e.2.id ≠ lookup.anchor) }
      else
        { s0 with anchors := spliced }
    match coords with
    | some c => (s1.click_select c).1
    | none => s1

/-- `Screen::draw_arrow` from `src/src/screen.rs`. -/
def Screen.draw_arrow (s : Screen) : Screen :=
  match s.drawing_arrow with
  | some fromL =>
    match s.last_selected with
    | some toL => { s with drawing_arrow := none, arrows := s.arrows ++ [(fromL, toL)] }
    | none => { s with drawing_arrow := none }
  | none => { s with drawing_arrow := s.last_selected }

/-- `Screen::click` from `src/src/screen.rs`. -/
def Screen.click (s : Screen) (now : Nat) (coords : Coords) : Screen :=
  let r1 := s.pop_selected
  let r2 := r1.1.try_select coords
  if r1.2 = none ∧ r2.1.dragging_from = none then r2.1.create_anchor now coords else r2.1

/-- `Screen::release` from `src/src/screen.rs`. -/
def Screen.release (s : Screen) (coords : Coords) : Screen :=
  match s.dragging_from with
  | some f => Screen.move_selected { s with dragging_from := none } f coords
  | none => s

/-- `Screen::save` from `src/src/screen.rs`: serialization and the
write-temp-then-rename swap are pure I/O and leave the editor state alone. -/
def Screen.save (s : Screen) : Screen := s

/-- `Screen::exit` from `src/src/screen.rs`: restores the terminal, saves and
terminates the process; the in-memory state is left alone. -/
def Screen.exit (s : Screen) : Screen := s.save

/-- Terminal input events (`termion::event::Event`) as matched by
`Screen::handle_event`; the mouse button of a press is never read. -/
inductive Ev where
  | char (c : Char)
  | delete
  | ctrl (c : Char)
  | alt (c : Char)
  | up
  | down
  | backspace
  | press (x y : Int)
  | release (x y : Int)
  | hold (x y : Int)
  | unsupported
  deriving Repr, DecidableEq

/-- `Screen::handle_event` from `src/src/screen.rs`, arm for arm; events that
reach the final arm are logged at warn and leave the state alone. -/
def Screen.handle_event (s : Screen) (now : Nat) (evt : Ev) : Screen :=
  match evt with
  | .char '\n' => s.toggle_collapsed now
  | .char '\t' => s.create_child now
  | .delete => s.delete_selected
  | .ctrl 'f' => s.toggle_hide_stricken now
  | .ctrl 'x' => s.toggle_stricken now
  | .ctrl 'a' => s.draw_arrow
  | .ctrl 'c' => s.exit
  | .ctrl 'd' => s.exit
  | .ctrl 's' => s.save
  | .ctrl 'w' => s.save
  | .up => s.select_up
  | .down => s.select_down
  | .backspace => s.backspace
  | .char c => s.append c
  | .press x y => Screen.click s now (x, y)
  | .release x y => Screen.release s (x, y)
  | .hold _ _ => s
  | _ => s

/-- The event loop body of `Screen::run`: handle one event, then redraw. -/
def Screen.run_events (s : Screen) (now : Nat) (evs : List Ev) : Screen :=
  evs.foldl (fun s e => s.handle_event now e) s

/-! Proof-side definitions: concrete states, queue helpers and invariants used
by the theorems below.  None of them is part of the embedded program. -/

/-- A fresh empty node with the given pointer identity, as `create_anchor`
builds it (clock fixed at `0`). -/
def plainNode (i : Nat) : Node :=
  ⟨i, "", [], false, false, false, false, Meta.default 0⟩

/-- A screen whose four anchors occupy every cardinal neighbour of `(5, 5)`:
an empty-content anchor at `(x, y)` hit-tests at `(x, y)` and `(x + 1, y)`,
so `(4,5)`, `(5,4)`, `(5,6)` and `(6,5)` cover the four neighbours. -/
def sBlocked : Screen :=
  { Screen.default with
      anchors := [((4, 5), plainNode 0), ((5, 4), plainNode 1),
                  ((5, 6), plainNode 2), ((6, 5), plainNode 3)] }

/-- A screen holding one anchor (pointer identity `5`) while the stored
selection and the only arrow refer to the removed pointer identity `0`. -/
def sDangle : Screen :=
  { Screen.default with
      anchors := [((1, 1), plainNode 5)]
    , arrows := [(⟨0, 0⟩, ⟨0, 0⟩)]
    , last_selected := some ⟨0, 0⟩ }

/-- Event sequence that creates an anchor at `(5,5)`, selects it, records a
self-arrow on it, and deletes the anchor, leaving the arrow dangling. -/
def crashEvents : List Ev :=
  [.press 5 5, .press 5 5, .release 5 5, .ctrl 'a', .ctrl 'a', .delete]

/-- A grandchild node, hidden below a collapsed child. -/
def c10grand : Node := ⟨2, "c", [], false, false, false, false, Meta.default 0⟩

/-- A collapsed child holding `c10grand`. -/
def c10child : Node := ⟨1, "b", [c10grand], false, true, false, false, Meta.default 0⟩

/-- An anchor root whose flat visible children list is `[c10child]` (the
grandchild is hidden inside the collapsed child). -/
def c10anchor : Node := ⟨0, "a", [c10child], false, false, false, false, Meta.default 0⟩

/-- A screen with `c10anchor` rooted at `(2, 3)`. -/
def sHidden : Screen := { Screen.default with anchors := [((2, 3), c10anchor)] }

/-- `BTreeMap::get` on the queue representation (proof helper). -/
def qget : List (Nat × List Coords) → Nat → Option (List Coords)
  | [], _ => none
  | (k', b) :: t, k => if k' = k then some b else qget t k

/-- Fold a whole insertion sequence into an initially empty queue. -/
def PrioQueue.insertAll (l : List (Nat × Coords)) : PrioQueue :=
  l.foldl (fun q p => q.insert p.1 p.2) PrioQueue.empty

/-- The values carrying key `k` in an insertion sequence, oldest first. -/
def bucketOf (l : List (Nat × Coords)) (k : Nat) : List Coords :=
  (l.filter (fun p => p.1 = k)).map Prod.snd

/-- Queue representation invariant: keys strictly ascending (the map order)
and no empty bucket stored. -/
def QInv (q : PrioQueue) : Prop :=
  q.to_visit.Pairwise (fun a b => a.1 < b.1) ∧ ∀ kb ∈ q.to_visit, kb.2 ≠ []

/-- A cell with both coordinates nonnegative (the `u16` range constraint that
the integer model makes explicit). -/
def cellOK (c : Coords) : Prop := 0 ≤ c.1 ∧ 0 ≤ c.2

/-- Search-state invariant for `Screen.path`: every visited key and value and
every queued cell is nonnegative. -/
def stOK (st : SearchSt) : Prop :=
  (∀ kv ∈ st.visited, cellOK kv.1 ∧ cellOK kv.2) ∧
  ∀ kb ∈ st.pq.to_visit, ∀ c ∈ kb.2, cellOK c

/-! Theorems. -/

/-- C5 (counterexample): on a fresh node created at clock `5`,
`toggle_stricken` makes the node stricken but leaves `finish_time` unset and
`mtime` at `0`, contradicting the claim that it stamps `mtime` and sets
`finish_time` from the current time. -/
theorem toggle_stricken_counterexample :
    ((mindmap.Node.default 5).toggle_stricken).stricken = true ∧
    ((mindmap.Node.default 5).toggle_stricken).meta.finish_time = none ∧
    ((mindmap.Node.default 5).toggle_stricken).meta.mtime = 0 := by
  decide

/-- C5 (amended): `Node::toggle_stricken` flips the `stricken` flag and
changes nothing else; in particular `meta` (so `mtime` and `finish_time`) is
left untouched. -/
theorem toggle_stricken_flips_only :
    ∀ n : mindmap.Node,
      (n.toggle_stricken).stricken = !n.stricken ∧
      (n.toggle_stricken).meta = n.meta ∧
      (n.toggle_stricken).content = n.content ∧
      (n.toggle_stricken).children = n.children ∧
      (n.toggle_stricken).collapsed = n.collapsed ∧
      (n.toggle_stricken).hide_stricken = n.hide_stricken := by
  intro n
  cases hn : n.stricken <;> simp [mindmap.Node.toggle_stricken, hn]

/-- C6 (counterexample): a non-collapsed node with `hide_stricken = true`
still returns all of its children: `visible_children` performs no filtering
(the children are bare ids, whose `stricken` flags live elsewhere in the
arena), contradicting the claimed `stricken ∧ hide_stricken` filter. -/
theorem visible_children_counterexample :
    ({ mindmap.Node.default 0 with children := [7], hide_stricken := true }
        : mindmap.Node).visible_children = [7] := by
  rfl

/-- C6 (amended): `visible_children` returns the empty sequence when the node
is collapsed and otherwise returns all children unfiltered; no child is ever
removed, whatever the `hide_stricken` flag. -/
theorem visible_children_no_filter :
    ∀ n : mindmap.Node,
      (n.collapsed = true → n.visible_children = []) ∧
      (n.collapsed = false → n.visible_children = n.children) ∧
      (n.collapsed = false → ∀ c ∈ n.children, c ∈ n.visible_children) := by
  intro n
  refine ⟨fun h => ?_, fun h => ?_, fun h c hc => ?_⟩
  · simp [mindmap.Node.visible_children, h]
  · simp [mindmap.Node.visible_children, h]
  · simpa [mindmap.Node.visible_children, h] using hc

/-- C6 (witness): the child id `7` of the counterexample node is reported
visible. -/
theorem visible_children_no_filter_witness :
    (7 : Nat) ∈ ({ mindmap.Node.default 0 with children := [7], hide_stricken := true }
        : mindmap.Node).visible_children :=
  (visible_children_no_filter _).2.2 rfl 7 (by simp)

/-- C7 (counterexample): a `Meta` created at clock `5` has `mtime = 0`, so the
claimed invariant `mtime ≥ ctime` already fails on a freshly created node. -/
theorem fresh_meta_counterexample :
    (Meta.default 5).mtime = 0 ∧ (Meta.default 5).ctime = 5 ∧
    ¬ (Meta.default 5).ctime ≤ (Meta.default 5).mtime := by
  decide

/-- C7 (amended): a fresh `Meta` starts with `mtime = 0` (violating
`mtime ≥ ctime` whenever the clock is positive); `bump_mtime` writes the
current clock and preserves `ctime`, so each mutation leaves `mtime` at least
its previous value provided the clock has not gone backwards. -/
theorem mtime_amended :
    ∀ (m : Meta) (now : Nat),
      (Meta.default now).mtime = 0 ∧
      (Meta.default now).ctime = now ∧
      (m.bump_mtime now).mtime = now ∧
      (m.bump_mtime now).ctime = m.ctime ∧
      (m.mtime ≤ now → m.mtime ≤ (m.bump_mtime now).mtime) := by
  intro m now
  exact ⟨rfl, rfl, rfl, rfl, fun h => h⟩

/-- C7 (witness): bumping a fresh `Meta` at a later clock raises `mtime`. -/
theorem mtime_amended_witness :
    (Meta.default 5).mtime ≤ ((Meta.default 5).bump_mtime 7).mtime :=
  (mtime_amended (Meta.default 5) 7).2.2.2.2 (by decide)

/-- C1: after the six-event sequence `crashEvents` (create an anchor, select
it, record a self-arrow, delete the anchor), the very next frame's arrow
overlay runs `path_between_nodes` on the dangling arrow and panics on the
`unwrap` of its bounds, for every fuel: `handle_event` followed by `draw`
does not terminate normally, against the no-crash property asserted by the
quickcheck test of `src/src/screen.rs`. -/
theorem crash_on_dangling_arrow :
    ∀ fuel : Nat,
      (Screen.run_events Screen.default 0 crashEvents).draw_ok fuel = false := by
  intro fuel
  rfl

/-- C3 (counterexample): with every cardinal neighbour of the start occupied
and the destination elsewhere, the very first iteration of `Screen::path`
finds the priority queue empty and panics on `pop().unwrap()`; no straight
Manhattan route is returned and no cap applies (fuel `1000` is not consumed:
the panic is immediate). -/
theorem path_cap_counterexample :
    Screen.path sBlocked (5, 5) (20, 20) 1000 = .panicked := by
  rfl

/-- C3 (amended): the single-route search has no expansion cap and no
Manhattan fallback: it loops until the destination is popped, and when the
frontier empties (here: a start cell fully enclosed by occupied cells) it
panics on the `unwrap` of `pop`, whatever the iteration budget. -/
theorem path_no_cap_panics :
    ∀ fuel : Nat, 1 ≤ fuel →
      Screen.path sBlocked (5, 5) (20, 20) fuel = .panicked := by
  intro fuel h
  obtain ⟨f, rfl⟩ : ∃ f, fuel = f + 1 := ⟨fuel - 1, by omega⟩
  rfl

/-- C3 (witness): the blocked search panics at fuel `3`. -/
theorem path_no_cap_panics_witness :
    Screen.path sBlocked (5, 5) (20, 20) 3 = .panicked :=
  path_no_cap_panics 3 (by norm_num)

/-- C4 (counterexample): dereferencing the dangling arrow endpoint of
`sDangle` (its anchor identity `0` is gone from the index) makes
`path_between_nodes` panic on the `unwrap` of the missing bounds: the
operation is not skipped. -/
theorem dangling_arrow_panic_counterexample :
    Screen.path_between_nodes sDangle ⟨0, 0⟩ ⟨0, 0⟩ 9 = .panicked := by
  rfl

/-- C4 (amended): for a stored lookup whose anchor has been removed from the
index, `coords_for_lookup` and `bounds_for_lookup` return `None`;
`select_up` and `select_down` skip the operation but do *not* clear the
dangling selection (the state, selection included, is unchanged), and
`path_between_nodes` panics on the `unwrap` of the missing bounds instead of
skipping. -/
theorem dangling_lookup_behaviour :
    ∀ (s : Screen) (l : NodeLookup),
      (∀ e ∈ s.anchors, e.2.id ≠ l.anchor) →
      s.coords_for_lookup l = none ∧
      (∀ fuel, s.bounds_for_lookup l fuel = none) ∧
      (∀ l2 fuel, s.path_between_nodes l l2 fuel = .panicked) ∧
      (s.last_selected = some l → s.select_up = s ∧ s.select_down = s) := by
  intro s l h
  have hfind : s.anchors.find? (fun e => e.2.id == l.anchor) = none := by
    rw [List.find?_eq_none]
    intro e he
    simpa using h e he
  have hc : s.coords_for_lookup l = none := by
    unfold Screen.coords_for_lookup
    rw [hfind]
  have hb : ∀ fuel, s.bounds_for_lookup l fuel = none := by
    intro fuel
    unfold Screen.bounds_for_lookup
    rw [hc]
  refine ⟨hc, hb, ?_, ?_⟩
  · intro l2 fuel
    unfold Screen.path_between_nodes
    rw [hb fuel]
  · intro hsel
    constructor
    · simp only [Screen.select_up, hsel, hc]
    · simp only [Screen.select_down, hsel, hc]

/-- C4 (witness): on `sDangle`, `select_up` leaves the state (dangling
selection included) unchanged and the dangling arrow panics the router. -/
theorem dangling_lookup_behaviour_witness :
    Screen.select_up sDangle = sDangle ∧
    Screen.path_between_nodes sDangle ⟨0, 0⟩ ⟨0, 0⟩ 3 = .panicked := by
  have h := dangling_lookup_behaviour sDangle ⟨0, 0⟩ (by
    intro e he
    have he2 : e = ((1, 1), plainNode 5) := List.mem_singleton.mp he
    subst he2
    decide)
  exact ⟨(h.2.2.2 rfl).1, h.2.2.1 ⟨0, 0⟩ 3⟩

/-- C2 (counterexample): the expansion step clamps with `max(v,1) - 1`, so at
`x = 1` the left neighbour is `(0, 1)` — a coordinate below `1` — and the
claimed clamped cell `(1, 1)` is not generated at all. -/
theorem perms_clamp_counterexample :
    perms (1, 1) = [(2, 1), (0, 1), (1, 2), (1, 0)] ∧
    ((0 : Int), (1 : Int)) ∈ perms (1, 1) ∧
    ¬ (1 ≤ ((0 : Int), (1 : Int)).1) ∧
    ((1 : Int), (1 : Int)) ∉ perms (1, 1) := by
  decide

/-- Helper: the index-accumulating fold of `coords_for_lookup` keeps its
initial value when no enumerated node matches the target identity. -/
theorem enumFrom_foldl_no_match (t : Nat) :
    ∀ (l : List Node) (k init : Nat),
      (∀ c ∈ l, c.id ≠ t) →
      (l.enumFrom k).foldl (fun idx ic => if ic.2.id = t then ic.1 + 1 else idx) init
        = init := by
  intro l
  induction l with
  | nil => intro k init _; rfl
  | cons c cs ih =>
    intro k init h
    have hc : c.id ≠ t := h c (by simp)
    have hrest : ∀ x ∈ cs, x.id ≠ t := fun x hx => h x (by simp [hx])
    show List.foldl _ (if c.id = t then k + 1 else init) (cs.enumFrom (k + 1)) = init
    rw [if_neg hc]
    exact ih (k + 1) init hrest

/-- C10: a stored lookup whose node is no longer enumerated among the flat
visible children of its anchor (while the anchor itself is still in the
index) resolves to the anchor's own coordinates: the row offset fold stays at
`0`, so `coords_for_lookup` is not `none` but the anchor root line. -/
theorem hidden_node_resolves_to_anchor_root :
    ∀ (s : Screen) (l : NodeLookup) (p : Coords) (a : Node),
      s.anchors.find? (fun e => e.2.id == l.anchor) = some (p, a) →
      (∀ c ∈ a.flat_visible_children, c.id ≠ l.node) →
      s.coords_for_lookup l = some p := by
  intro s l p a hfind hno
  unfold Screen.coords_for_lookup
  rw [hfind]
  have hfold :
      (a.flat_visible_children.enum.foldl
        (fun idx ic => if ic.2.id = l.node then ic.1 + 1 else idx) 0) = 0 :=
    enumFrom_foldl_no_match l.node a.flat_visible_children 0 0 hno
  simp only [hfold]
  simp

/-- C10 (witness): on `sHidden`, the lookup of the grandchild (identity `2`)
hidden inside the collapsed child resolves to the anchor coordinates `(2,3)`. -/
theorem hidden_node_resolves_to_anchor_root_witness :
    Screen.coords_for_lookup sHidden ⟨0, 2⟩ = some (2, 3) :=
  hidden_node_resolves_to_anchor_root sHidden ⟨0, 2⟩ (2, 3) c10anchor rfl (by
    intro c hcm
    have h2 : c ∈ [c10child] := hcm
    have h3 : c = c10child := List.mem_singleton.mp h2
    subst h3
    decide)

/-- Helper: an accumulate-if fold is the accumulator followed by the filter. -/
theorem foldl_push_filter {α : Type} (p : α → Prop) [DecidablePred p] :
    ∀ (l : List α) (acc : List α),
      l.foldl (fun acc e => if p e then acc ++ [e] else acc) acc
        = acc ++ l.filter (fun e => decide (p e)) := by
  intro l
  induction l with
  | nil => intro acc; simp
  | cons x t ih =>
    intro acc
    by_cases hx : p x
    · rw [List.foldl_cons, if_pos hx, ih]
      simp [List.filter_cons, hx]
    · rw [List.foldl_cons, if_neg hx, ih]
      simp [List.filter_cons, hx]

/-- Unfolding `pushLook` on a hit. -/
theorem pushLook_some (acc : List NodeLookup) (i : Nat) (n : Node) :
    pushLook acc i (some n) = acc ++ [NodeLookup.mk i n.id] := rfl

/-- Unfolding `pushLook` on a miss. -/
theorem pushLook_none (acc : List NodeLookup) (i : Nat) :
    pushLook acc i none = acc := rfl

/-- Helper: an accumulate-on-hit fold (through `pushLook`) is the accumulator
followed by the `filterMap` of the per-element probe mapped through the
lookup constructor. -/
theorem foldl_push_filterMap {α : Type} (h : α → Option Node) (a : α → Nat) :
    ∀ (l : List α) (acc : List NodeLookup),
      l.foldl (fun acc e => pushLook acc (a e) (h e)) acc
        = acc ++ l.filterMap (fun e => (h e).map (fun n => NodeLookup.mk (a e) n.id)) := by
  intro l
  induction l with
  | nil => intro acc; simp
  | cons x t ih =>
    intro acc
    cases hx : h x with
    | none =>
      simp only [List.foldl_cons, List.filterMap_cons, hx, Option.map_none', pushLook_none]
      exact ih acc
    | some y =>
      simp only [List.foldl_cons, List.filterMap_cons, hx, Option.map_some', pushLook_some]
      rw [ih]
      simp

/-- C9: hit-testing a click `c` considers exactly the anchor entries `(p, a)`
with `p.x ≤ c.x`, `p.y ≤ c.y` and `c.y - p.y < height a`; a candidate with
row offset `0` matches its root exactly when the column offset is at most
`len(content) + 1` (otherwise the node-level lookup decides); and the result
is the last match of the candidates in ascending anchor-index order, `none`
when there is no match. -/
theorem find_child_at_coords_characterisation :
    ∀ (s : Screen) (c : Coords),
      s.find_child_at_coords c =
        ((s.anchors.filter (fun e =>
            decide (e.1.1 ≤ c.1 ∧ e.1.2 ≤ c.2 ∧ c.2 - e.1.2 < (e.2.height : Int)))).filterMap
          (fun e =>
            ((if c.2 - e.1.2 = 0 then
                if c.1 - e.1.1 ≤ (e.2.content.length : Int) + 1 then some e.2 else none
              else e.2.find_child_at_coords (c.1 - e.1.1, c.2 - e.1.2))).map
              (fun n => NodeLookup.mk e.2.id n.id))).getLast? := by
  intro s c
  have h1 : s.anchors.foldl
        (fun acc e =>
          if e.1.1 ≤ c.1 ∧ e.1.2 ≤ c.2 ∧ c.2 - e.1.2 < (e.2.height : Int)
          then acc ++ [e] else acc) []
      = [] ++ s.anchors.filter (fun e =>
          decide (e.1.1 ≤ c.1 ∧ e.1.2 ≤ c.2 ∧ c.2 - e.1.2 < (e.2.height : Int))) :=
    foldl_push_filter _ s.anchors []
  have h2 : ∀ l : List (Coords × Node), l.foldl
        (fun acc e => pushLook acc e.2.id
          (if c.2 - e.1.2 = 0 then
              if c.1 - e.1.1 ≤ (e.2.content.length : Int) + 1 then some e.2 else none
            else e.2.find_child_at_coords (c.1 - e.1.1, c.2 - e.1.2))) []
      = [] ++ l.filterMap (fun e =>
          ((if c.2 - e.1.2 = 0 then
              if c.1 - e.1.1 ≤ (e.2.content.length : Int) + 1 then some e.2 else none
            else e.2.find_child_at_coords (c.1 - e.1.1, c.2 - e.1.2))).map
            (fun n => NodeLookup.mk e.2.id n.id)) :=
    fun l => foldl_push_filterMap
      (fun e : Coords × Node =>
        (if c.2 - e.1.2 = 0 then
            if c.1 - e.1.1 ≤ (e.2.content.length : Int) + 1 then some e.2 else none
          else e.2.find_child_at_coords (c.1 - e.1.1, c.2 - e.1.2)))
      (fun e => e.2.id) l []
  show ((s.anchors.foldl
        (fun acc e =>
          if e.1.1 ≤ c.1 ∧ e.1.2 ≤ c.2 ∧ c.2 - e.1.2 < (e.2.height : Int)
          then acc ++ [e] else acc) []).foldl
        (fun acc e => pushLook acc e.2.id
          (if c.2 - e.1.2 = 0 then
              if c.1 - e.1.1 ≤ (e.2.content.length : Int) + 1 then some e.2 else none
            else e.2.find_child_at_coords (c.1 - e.1.1, c.2 - e.1.2))) []).getLast? = _
  rw [h1, List.nil_append, h2, List.nil_append]

/-- Helper: the removed bucket is the one `qget` finds. -/
theorem qremove_fst : ∀ (l : List (Nat × List Coords)) (k : Nat),
    (qremove l k).1 = qget l k := by
  intro l
  induction l with
  | nil => intro k; rfl
  | cons x t ih =>
    obtain ⟨k0, b0⟩ := x
    intro k
    by_cases h : k0 = k
    · simp [qremove, qget, h]
    · simp [qremove, qget, h, ih]

/-- Helper: removal yields a sublist. -/
theorem qremove_snd_sublist : ∀ (l : List (Nat × List Coords)) (k : Nat),
    List.Sublist (qremove l k).2 l := by
  intro l
  induction l with
  | nil => intro k; simp [qremove]
  | cons x t ih =>
    obtain ⟨k0, b0⟩ := x
    intro k
    by_cases h : k0 = k
    · simp only [qremove, if_pos h]
      exact List.sublist_cons_self _ _
    · simp only [qremove, if_neg h]
      exact List.Sublist.cons₂ _ (ih k)

/-- Helper: removing one key leaves lookups of other keys unchanged. -/
theorem qget_qremove_snd_ne : ∀ (l : List (Nat × List Coords)) (k k' : Nat),
    k' ≠ k → qget (qremove l k).2 k' = qget l k' := by
  intro l
  induction l with
  | nil => intro k k' _; rfl
  | cons x t ih =>
    obtain ⟨k0, b0⟩ := x
    intro k k' h
    by_cases h0 : k0 = k
    · subst h0
      simp [qremove, qget, Ne.symm h]
    · by_cases h1 : k0 = k'
      · subst h1
        simp [qremove, qget, h0]
      · simp [qremove, qget, h0, h1, ih k k' h]

/-- Helper: lookup after sorted insertion. -/
theorem qget_qinsert : ∀ (l : List (Nat × List Coords)) (k : Nat) (b : List Coords) (k' : Nat),
    qget (qinsert l k b) k' = if k' = k then some b else qget l k' := by
  intro l
  induction l with
  | nil =>
    intro k b k'
    by_cases h : k' = k
    · simp [qinsert, qget, h]
    · simp [qinsert, qget, h, Ne.symm h]
  | cons x t ih =>
    obtain ⟨k0, b0⟩ := x
    intro k b k'
    by_cases h1 : k < k0
    · by_cases h : k' = k
      · simp [qinsert, qget, h1, h]
      · simp [qinsert, qget, h1, h, Ne.symm h]
    · by_cases h2 : k = k0
      · subst h2
        by_cases h : k' = k
        · simp [qinsert, qget, h1, h]
        · simp [qinsert, qget, h1, h, Ne.symm h]
      · by_cases h3 : k0 = k'
        · subst h3
          simp [qinsert, qget, h1, h2, Ne.symm h2]
        · simp [qinsert, qget, h1, h2, h3, ih]

/-- Helper: membership after sorted insertion. -/
theorem mem_qinsert : ∀ (l : List (Nat × List Coords)) (k : Nat) (b : List Coords)
    (x : Nat × List Coords), x ∈ qinsert l k b → x = (k, b) ∨ x ∈ l := by
  intro l
  induction l with
  | nil =>
    intro k b x hx
    simp [qinsert] at hx
    exact Or.inl hx
  | cons y t ih =>
    obtain ⟨k0, b0⟩ := y
    intro k b x hx
    by_cases h1 : k < k0
    · simp only [qinsert, if_pos h1, List.mem_cons] at hx
      rcases hx with h | h | h
      · exact Or.inl h
      · exact Or.inr (by simp [h])
      · exact Or.inr (by simp [h])
    · by_cases h2 : k = k0
      · simp only [qinsert, if_neg h1, if_pos h2, List.mem_cons] at hx
        rcases hx with h | h
        · exact Or.inl h
        · exact Or.inr (by simp [h])
      · simp only [qinsert, if_neg h1, if_neg h2, List.mem_cons] at hx
        rcases hx with h | h
        · exact Or.inr (by simp [h])
        · rcases ih k b x h with h3 | h3
          · exact Or.inl h3
          · exact Or.inr (by simp [h3])

/-- Helper: sorted insertion preserves the strictly ascending key order. -/
theorem qinsert_pairwise : ∀ (l : List (Nat × List Coords)) (k : Nat) (b : List Coords),
    l.Pairwise (fun a c => a.1 < c.1) → (qinsert l k b).Pairwise (fun a c => a.1 < c.1) := by
  intro l
  induction l with
  | nil => intro k b _; simp [qinsert]
  | cons x t ih =>
    obtain ⟨k0, b0⟩ := x
    intro k b hp
    rw [List.pairwise_cons] at hp
    obtain ⟨hall, hpt⟩ := hp
    by_cases h1 : k < k0
    · simp only [qinsert, if_pos h1]
      rw [List.pairwise_cons]
      refine ⟨?_, List.pairwise_cons.mpr ⟨hall, hpt⟩⟩
      intro y hy
      rcases List.mem_cons.mp hy with rfl | hmem
      · exact h1
      · exact lt_trans h1 (hall y hmem)
    · by_cases h2 : k = k0
      · subst h2
        simp only [qinsert, if_neg h1, if_pos rfl]
        exact List.pairwise_cons.mpr ⟨hall, hpt⟩
      · have hk0 : k0 < k := by omega
        simp only [qinsert, if_neg h1, if_neg h2]
        rw [List.pairwise_cons]
        refine ⟨?_, ih k b hpt⟩
        intro y hy
        rcases mem_qinsert t k b y hy with rfl | hmem
        · exact hk0
        · exact hall y hmem

/-- Helper: a successful lookup is a member. -/
theorem qget_some_mem : ∀ (l : List (Nat × List Coords)) (k : Nat) (b : List Coords),
    qget l k = some b → (k, b) ∈ l := by
  intro l
  induction l with
  | nil => intro k b h; simp [qget] at h
  | cons x t ih =>
    obtain ⟨k0, b0⟩ := x
    intro k b h
    by_cases h0 : k0 = k
    · subst h0
      simp [qget] at h
      simp [h]
    · simp [qget, h0] at h
      exact List.mem_cons_of_mem _ (ih k b h)

/-- Helper: lookup through `PrioQueue::insert`: the inserted key's bucket
gains `v` at its end, other buckets are untouched. -/
theorem qget_insert : ∀ (q : PrioQueue) (k : Nat) (v : Coords) (k' : Nat),
    qget (q.insert k v).to_visit k'
      = if k' = k then some ((qget q.to_visit k).getD [] ++ [v])
        else qget q.to_visit k' := by
  intro q k v k'
  show qget (qinsert (qremove q.to_visit k).2 k ((qremove q.to_visit k).1.getD [] ++ [v])) k' = _
  rw [qget_qinsert, qremove_fst]
  by_cases h : k' = k
  · simp [h]
  · simp [h, qget_qremove_snd_ne _ _ _ h]

/-- Helper: `PrioQueue::insert` preserves the representation invariant. -/
theorem insert_QInv : ∀ (q : PrioQueue) (k : Nat) (v : Coords),
    QInv q → QInv (q.insert k v) := by
  intro q k v hq
  obtain ⟨hp, hb⟩ := hq
  constructor
  · exact qinsert_pairwise _ _ _ (hp.sublist (qremove_snd_sublist q.to_visit k))
  · intro kb hkb
    rcases mem_qinsert _ _ _ _ hkb with rfl | hmem
    · simp
    · exact hb kb ((qremove_snd_sublist q.to_visit k).subset hmem)

/-- Helper: a whole fold of inserts preserves the invariant. -/
theorem foldl_insert_QInv : ∀ (l : List (Nat × Coords)) (q : PrioQueue),
    QInv q → QInv (l.foldl (fun q p => q.insert p.1 p.2) q) := by
  intro l
  induction l with
  | nil => intro q h; exact h
  | cons p t ih =>
    intro q h
    rw [List.foldl_cons]
    exact ih _ (insert_QInv _ _ _ h)

/-- Helper: the queue built from an insertion sequence holds, at each key,
exactly the values inserted with that key, oldest first. -/
theorem foldl_insert_qget : ∀ (l : List (Nat × Coords)) (q : PrioQueue) (k : Nat),
    qget ((l.foldl (fun q p => q.insert p.1 p.2) q)).to_visit k
      = if bucketOf l k = [] then qget q.to_visit k
        else some ((qget q.to_visit k).getD [] ++ bucketOf l k) := by
  intro l
  induction l with
  | nil => intro q k; simp [bucketOf]
  | cons p t ih =>
    intro q k
    rw [List.foldl_cons, ih]
    by_cases hk : p.1 = k
    · have hb : bucketOf (p :: t) k = p.2 :: bucketOf t k := by
        simp [bucketOf, List.filter_cons, hk]
      rw [hb, qget_insert]
      by_cases ht : bucketOf t k = []
      · simp [ht, hk]
      · simp [ht, hk]
    · have hb : bucketOf (p :: t) k = bucketOf t k := by
        simp [bucketOf, List.filter_cons, hk]
      rw [hb, qget_insert]
      have hk2 : ¬ k = p.1 := fun hh => hk hh.symm
      by_cases ht : bucketOf t k = []
      · simp [ht, hk2]
      · simp [ht, hk2]

/-- C8: for any sequence of inserts into an initially empty queue, `pop`
returns `None` exactly when no insert happened, and otherwise returns the
most recently inserted value among those carrying the minimum key (LIFO
within the minimum-key bucket). -/
theorem prioqueue_pop_min_lifo :
    ∀ l : List (Nat × Coords),
      ((PrioQueue.insertAll l).pop.1 = none ↔ l = []) ∧
      (∀ m : Nat, m ∈ l.map Prod.fst → (∀ k ∈ l.map Prod.fst, m ≤ k) →
        (PrioQueue.insertAll l).pop.1 = (bucketOf l m).getLast?) := by
  intro l
  have hget : ∀ k, qget (PrioQueue.insertAll l).to_visit k
      = if bucketOf l k = [] then none else some (bucketOf l k) := by
    intro k
    have h := foldl_insert_qget l PrioQueue.empty k
    simpa [PrioQueue.insertAll, PrioQueue.empty, qget] using h
  have hkey : ∀ (k0 : Nat) (b0 : List Coords) (t2 : List (Nat × List Coords)),
      (PrioQueue.insertAll l).to_visit = (k0, b0) :: t2 →
      b0 = bucketOf l k0 ∧ k0 ∈ l.map Prod.fst := by
    intro k0 b0 t2 hL
    have h0 := hget k0
    rw [hL] at h0
    have hq0 : qget ((k0, b0) :: t2) k0 = some b0 := by simp [qget]
    rw [hq0] at h0
    by_cases hb0 : bucketOf l k0 = []
    · rw [if_pos hb0] at h0
      exact absurd h0 (by simp)
    · rw [if_neg hb0] at h0
      have hb0e : b0 = bucketOf l k0 := by
        exact Option.some.inj h0
      refine ⟨hb0e, ?_⟩
      have hf : l.filter (fun p => decide (p.1 = k0)) ≠ [] := by
        intro hnil
        exact hb0 (by simp [bucketOf, hnil])
      obtain ⟨p, hp⟩ := List.exists_mem_of_ne_nil _ hf
      have hp2 := List.mem_filter.mp hp
      have hpk : p.1 = k0 := by simpa using hp2.2
      exact List.mem_map.mpr ⟨p, hp2.1, hpk⟩
  constructor
  · constructor
    · intro hpop
      by_contra hne
      obtain ⟨p, t, rfl⟩ : ∃ p t, l = p :: t := by
        cases l with
        | nil => exact absurd rfl hne
        | cons a b => exact ⟨a, b, rfl⟩
      cases hL : (PrioQueue.insertAll (p :: t)).to_visit with
      | nil =>
        have hq := hget p.1
        rw [hL] at hq
        have hb : bucketOf (p :: t) p.1 ≠ [] := by
          simp [bucketOf, List.filter_cons]
        rw [if_neg hb] at hq
        simp [qget] at hq
      | cons x t2 =>
        obtain ⟨k0, b0⟩ := x
        have hx := hkey k0 b0 t2 hL
        have hpop2 : (PrioQueue.insertAll (p :: t)).pop.1 = b0.getLast? := by
          simp [PrioQueue.pop, hL]
        rw [hpop2] at hpop
        rw [List.getLast?_eq_none_iff] at hpop
        obtain ⟨q2, hq2, hq2k⟩ := List.mem_map.mp hx.2
        have hmem2 : q2.2 ∈ bucketOf (p :: t) k0 := by
          refine List.mem_map.mpr ⟨q2, ?_, rfl⟩
          exact List.mem_filter.mpr ⟨hq2, by simpa using hq2k⟩
        rw [← hx.1, hpop] at hmem2
        simp at hmem2
    · intro h
      subst h
      rfl
  · intro m hm hmin
    have hbm : bucketOf l m ≠ [] := by
      obtain ⟨p, hp, hpk⟩ := List.mem_map.mp hm
      have : p.2 ∈ bucketOf l m := by
        refine List.mem_map.mpr ⟨p, ?_, rfl⟩
        exact List.mem_filter.mpr ⟨hp, by simpa using hpk⟩
      exact List.ne_nil_of_mem this
    have hqm := hget m
    rw [if_neg hbm] at hqm
    cases hL : (PrioQueue.insertAll l).to_visit with
    | nil =>
      rw [hL] at hqm
      simp [qget] at hqm
    | cons x t2 =>
      obtain ⟨k0, b0⟩ := x
      have hx := hkey k0 b0 t2 hL
      have hpair : ((PrioQueue.insertAll l).to_visit).Pairwise (fun a c => a.1 < c.1) :=
        (foldl_insert_QInv l PrioQueue.empty ⟨List.Pairwise.nil, by simp [PrioQueue.empty]⟩).1
      rw [hL] at hpair
      have hmk0 : m ≤ k0 := hmin k0 hx.2
      have hmem := qget_some_mem _ _ _ hqm
      rw [hL] at hmem
      rcases List.mem_cons.mp hmem with heq | hmt
      · have hm0 : m = k0 := congrArg Prod.fst heq
        have hpop2 : (PrioQueue.insertAll l).pop.1 = b0.getLast? := by
          simp [PrioQueue.pop, hL]
        rw [hpop2, hx.1, ← hm0]
      · have hlt := (List.pairwise_cons.mp hpair).1 _ hmt
        simp at hlt
        omega

/-- C8 (witness): inserting `(3,(5,5))`, `(1,(2,2))`, `(1,(9,9))` makes `pop`
return `(9,9)`: the minimum key is `1` and the later insert wins. -/
theorem prioqueue_pop_min_lifo_witness :
    (PrioQueue.insertAll [(3, ((5 : Int), (5 : Int))), (1, (2, 2)), (1, (9, 9))]).pop.1
      = some (9, 9) := by
  have h := (prioqueue_pop_min_lifo [(3, (5, 5)), (1, (2, 2)), (1, (9, 9))]).2 1
    (by simp) (by intro k hk; simp at hk; omega)
  rw [h]
  rfl

/-- Helper: the four generated neighbours of a nonnegative cell are
nonnegative (the decrement saturates at `0` through `max(v,1) - 1`). -/
theorem perms_nonneg : ∀ c p : Coords, p ∈ perms c → 0 ≤ c.1 → 0 ≤ c.2 →
    0 ≤ p.1 ∧ 0 ≤ p.2 := by
  intro c p hp h1 h2
  simp only [perms, List.mem_cons, List.mem_singleton, List.not_mem_nil, or_false] at hp
  rcases hp with rfl | rfl | rfl | rfl <;> constructor <;> simp <;> omega

/-- Helper: a successful `visited` lookup is a member. -/
theorem vlookup_mem : ∀ (l : List (Coords × Coords)) (c v : Coords),
    vlookup l c = some v → (c, v) ∈ l := by
  intro l
  induction l with
  | nil => intro c v h; simp [vlookup] at h
  | cons x t ih =>
    obtain ⟨k0, v0⟩ := x
    intro c v h
    by_cases h0 : k0 = c
    · subst h0
      simp [vlookup] at h
      simp [h]
    · simp [vlookup, h0] at h
      exact List.mem_cons_of_mem _ (ih c v h)

/-- Helper: `PrioQueue::insert` only adds the new value to the stored cells. -/
theorem pq_insert_cells (q : PrioQueue) (k : Nat) (v : Coords)
    (hq : ∀ kb ∈ q.to_visit, ∀ c ∈ kb.2, cellOK c) (hv : cellOK v) :
    ∀ kb ∈ (q.insert k v).to_visit, ∀ c ∈ kb.2, cellOK c := by
  intro kb hkb c hc
  have hkb2 : kb ∈ qinsert (qremove q.to_visit k).2 k
      ((qremove q.to_visit k).1.getD [] ++ [v]) := hkb
  rcases mem_qinsert _ _ _ _ hkb2 with rfl | hmem
  · rcases List.mem_append.mp hc with h | h
    · cases hr : (qremove q.to_visit k).1 with
      | none => rw [hr] at h; simp at h
      | some b =>
        rw [hr] at h
        have hg : qget q.to_visit k = some b := by rw [← qremove_fst, hr]
        exact hq (k, b) (qget_some_mem _ _ _ hg) c (by simpa using h)
    · have hcv : c = v := by simpa using h
      rw [hcv]
      exact hv
  · exact hq kb ((qremove_snd_sublist q.to_visit k).subset hmem) c hc

/-- Helper: a popped cell was stored in the queue. -/
theorem pop_some_mem (q : PrioQueue) (c : Coords) (q' : PrioQueue)
    (h : q.pop = (some c, q')) : ∃ kb ∈ q.to_visit, c ∈ kb.2 := by
  cases hL : q.to_visit with
  | nil => simp [PrioQueue.pop, hL] at h
  | cons x t =>
    obtain ⟨k0, b0⟩ := x
    simp only [PrioQueue.pop, hL] at h
    rw [Prod.mk.injEq] at h
    refine ⟨(k0, b0), List.mem_cons_self _ _, ?_⟩
    exact List.mem_of_getLast?_eq_some h.1

/-- Helper: the queue left by `pop` stores only cells the queue stored. -/
theorem pop_snd_mem (q : PrioQueue) (c0 : Coords) (q' : PrioQueue)
    (h : q.pop = (some c0, q')) :
    ∀ kb ∈ q'.to_visit, ∀ c ∈ kb.2, ∃ kb0 ∈ q.to_visit, c ∈ kb0.2 := by
  cases hL : q.to_visit with
  | nil => simp [PrioQueue.pop, hL] at h
  | cons x t =>
    obtain ⟨k0, b0⟩ := x
    simp only [PrioQueue.pop, hL] at h
    rw [Prod.mk.injEq] at h
    intro kb hkb c hc
    rw [← h.2] at hkb
    have hkb2 : kb ∈ (if (b0.dropLast).isEmpty then t else qinsert t k0 b0.dropLast) := hkb
    by_cases hde : (b0.dropLast).isEmpty
    · rw [if_pos hde] at hkb2
      exact ⟨kb, List.mem_cons_of_mem _ hkb2, hc⟩
    · rw [if_neg hde] at hkb2
      rcases mem_qinsert _ _ _ _ hkb2 with rfl | hmem
      · refine ⟨(k0, b0), List.mem_cons_self _ _, ?_⟩
        exact (List.dropLast_sublist b0).subset hc
      · exact ⟨kb, List.mem_cons_of_mem _ hmem, hc⟩

/-- Helper: the expansion fold preserves the nonnegativity invariant when the
expanded neighbours and the cursor are nonnegative. -/
theorem foldl_expand_ok (s : Screen) (dest cursor : Coords) :
    ∀ (l : List Coords) (st : SearchSt),
      (∀ n ∈ l, cellOK n) → cellOK cursor → stOK st →
      stOK (l.foldl (fun st neighbor =>
        if (s.occupied neighbor = false ∨ neighbor = dest) ∧
            vlookup st.visited neighbor = none
        then ⟨st.visited ++ [(neighbor, cursor)], st.pq.insert (cost neighbor dest) neighbor⟩
        else st) st) := by
  intro l
  induction l with
  | nil => intro st _ _ h; exact h
  | cons n t ih =>
    intro st hl hcur hst
    rw [List.foldl_cons]
    apply ih _ (fun x hx => hl x (List.mem_cons_of_mem _ hx)) hcur
    by_cases hcond : (s.occupied n = false ∨ n = dest) ∧ vlookup st.visited n = none
    · rw [if_pos hcond]
      have hn : cellOK n := hl n (List.mem_cons_self _ _)
      constructor
      · intro kv hkv
        rcases List.mem_append.mp hkv with hmem | hmem
        · exact hst.1 kv hmem
        · have hkv2 : kv = (n, cursor) := by simpa using hmem
          rw [hkv2]
          exact ⟨hn, hcur⟩
      · exact pq_insert_cells st.pq _ _ hst.2 hn
    · rw [if_neg hcond]
      exact hst

/-- Helper: one neighbour expansion preserves the invariant. -/
theorem expand_stOK (s : Screen) (dest cursor : Coords) (st : SearchSt)
    (hcur : cellOK cursor) (hst : stOK st) : stOK (expand s dest cursor st) := by
  unfold expand
  exact foldl_expand_ok s dest cursor (perms cursor) st
    (fun n hn => perms_nonneg cursor n hn hcur.1 hcur.2) hcur hst

/-- Helper: the reconstruction walk emits only stored predecessor values. -/
theorem backWalk_ok (visited : List (Coords × Coords)) (start : Coords)
    (hv : ∀ kv ∈ visited, cellOK kv.2) :
    ∀ (fuel : Nat) (back : Coords) (p : List Coords),
      backWalk visited start fuel back = some p → ∀ c ∈ p, cellOK c := by
  intro fuel
  induction fuel with
  | zero => intro back p h; exact absurd h (by simp [backWalk])
  | succ f ih =>
    intro back p h
    simp only [backWalk] at h
    by_cases hs : back = start
    · rw [if_pos hs] at h
      have hp : p = [] := by simpa using h.symm
      intro c hc
      rw [hp] at hc
      simp at hc
    · rw [if_neg hs] at h
      cases hv2 : vlookup visited back with
      | none =>
        rw [hv2] at h
        have h2 : (none : Option (List Coords)) = some p := h
        exact absurd h2 (by simp)
      | some prev =>
        rw [hv2] at h
        have h2 : (backWalk visited start f prev).map (fun p => prev :: p) = some p := h
        rw [Option.map_eq_some'] at h2
        obtain ⟨p2, hbw, hp⟩ := h2
        intro c hc
        rw [← hp] at hc
        rcases List.mem_cons.mp hc with rfl | hc2
        · exact hv _ (vlookup_mem _ _ _ hv2)
        · exact ih prev p2 hbw c hc2

/-- Helper: every cell of a route produced by the search loop is nonnegative,
given a nonnegative cursor and invariant-satisfying state. -/
theorem pathLoop_route_ok :
    ∀ (s : Screen) (start dest : Coords) (fuel : Nat) (cursor : Coords)
      (st : SearchSt) (r : List Coords),
      cellOK cursor → stOK st →
      pathLoop s start dest fuel cursor st = .route r →
      ∀ c ∈ r, cellOK c := by
  intro s start dest fuel
  induction fuel with
  | zero =>
    intro cursor st r _ _ h
    exact absurd h (by simp [pathLoop])
  | succ f ih =>
    intro cursor st r hcur hst hrun
    simp only [pathLoop] at hrun
    by_cases hd : cursor = dest
    · rw [if_pos hd] at hrun
      cases hbw : backWalk st.visited start (st.visited.length + 1) dest with
      | none =>
        rw [hbw] at hrun
        have h2 : PathResult.panicked = PathResult.route r := hrun
        exact absurd h2 (by simp)
      | some p =>
        rw [hbw] at hrun
        have hp : PathResult.route p.reverse = PathResult.route r := hrun
        have hr : r = p.reverse := (PathResult.route.injEq _ _).mp hp |>.symm
        intro c hc
        rw [hr, List.mem_reverse] at hc
        exact backWalk_ok st.visited start (fun kv hkv => (hst.1 kv hkv).2)
          (st.visited.length + 1) dest p hbw c hc
    · rw [if_neg hd] at hrun
      have hst2 : stOK (expand s dest cursor st) := expand_stOK s dest cursor st hcur hst
      cases hpq : (expand s dest cursor st).pq.pop with
      | mk o q' =>
        rw [hpq] at hrun
        cases o with
        | none =>
          have h2 : PathResult.panicked = PathResult.route r := hrun
          exact absurd h2 (by simp)
        | some cnext =>
          have hcn : cellOK cnext := by
            obtain ⟨kb, hkb, hck⟩ := pop_some_mem _ _ _ hpq
            exact hst2.2 kb hkb cnext hck
          have hstn : stOK ⟨(expand s dest cursor st).visited, q'⟩ := by
            constructor
            · exact hst2.1
            · intro kb hkb c hc
              obtain ⟨kb0, hkb0, hc0⟩ := pop_snd_mem _ _ _ hpq kb hkb c hc
              exact hst2.2 kb0 hkb0 c hc0
          exact ih cnext ⟨(expand s dest cursor st).visited, q'⟩ r hcn hstn hrun

/-- C2 (amended): every neighbour generated by the expansion step from a
nonnegative cell is nonnegative (the decremented coordinate saturates at `0`,
not at `1`), and consequently every cell of every route the router returns
from a nonnegative start satisfies `x ≥ 0 ∧ y ≥ 0` (but not necessarily
`≥ 1`: see the counterexample). -/
theorem route_cells_nonneg :
    (∀ c p : Coords, p ∈ perms c → 0 ≤ c.1 → 0 ≤ c.2 → 0 ≤ p.1 ∧ 0 ≤ p.2) ∧
    ∀ (s : Screen) (start dest : Coords) (fuel : Nat) (r : List Coords),
      0 ≤ start.1 → 0 ≤ start.2 →
      s.path start dest fuel = .route r →
      ∀ c ∈ r, 0 ≤ c.1 ∧ 0 ≤ c.2 := by
  constructor
  · exact perms_nonneg
  · intro s start dest fuel r h1 h2 hrun
    exact pathLoop_route_ok s start dest fuel start ⟨[], PrioQueue.empty⟩ r
      ⟨h1, h2⟩ ⟨by simp, by simp [PrioQueue.empty]⟩ hrun

/-- C2 (witness): the route the router returns on the empty screen from
`(1,1)` to `(3,1)` is `[(1,1),(2,1)]`, and its cell `(2,1)` is nonnegative. -/
theorem route_cells_nonneg_witness :
    0 ≤ ((2 : Int), (1 : Int)).1 ∧ 0 ≤ ((2 : Int), (1 : Int)).2 :=
  route_cells_nonneg.2 Screen.default (1, 1) (3, 1) 5 [(1, 1), (2, 1)]
    (by norm_num) (by norm_num) rfl (2, 1) (by simp)

end VoidMap
